import Mathlib

/-!
Verification of the parallel-spreadsheet enrichment core.

Shallow embedding of the orchestration layer of `src/app/page.tsx`:
the job-descriptor builder (`enrich`'s rowsPayload construction), the batch
submitter and correlation-table construction (the POST handler's `run_map`),
the event reconciler (`handleEventData` / `applyRowResult`), the pending-set
and lifecycle state (`pending`, `busy`, the cancel / timeout / error paths),
and the SSE proxy transport (the GET handler's per-frame loop).

JavaScript dynamic values are modelled by the inductive `Content`
(undefined / null / boolean / number / string / array / object); JS object
property access, truthiness, string coercion and `Object.fromEntries`
insertion order are modelled explicitly so that the embedding follows the
source's semantics rather than an idealisation of it.
-/

namespace PSheet

/-- A JavaScript runtime value, as manipulated by the untyped parts of
`page.tsx` (cell values, parsed SSE event payloads, enrichment outputs).
Numbers are modelled as integers: every number the program itself produces
or compares is integral, and no claim concerns fractional values.
An object is its (key, value) entry list in insertion order; objects built
by `JSON.parse` / `Object.fromEntries` have pairwise distinct keys. -/
inductive Content where
  | undefV : Content
  | nullV : Content
  | boolV : Bool → Content
  | numV : Int → Content
  | strV : String → Content
  | arrV : List Content → Content
  | objV : List (String × Content) → Content
deriving Repr

mutual

/-- Structural decidable equality for `Content` (JS strict equality on the
fragment we use: same shape and same components). -/
def Content.beq : Content → Content → Bool
  | .undefV, .undefV => true
  | .nullV, .nullV => true
  | .boolV a, .boolV b => a == b
  | .numV a, .numV b => a == b
  | .strV a, .strV b => a == b
  | .arrV a, .arrV b => Content.beqList a b
  | .objV a, .objV b => Content.beqObj a b
  | _, _ => false

/-- Elementwise equality test for lists of `Content`. -/
def Content.beqList : List Content → List Content → Bool
  | [], [] => true
  | a :: as', b :: bs' => Content.beq a b && Content.beqList as' bs'
  | _, _ => false

/-- Entrywise equality test for object entry lists. -/
def Content.beqObj : List (String × Content) → List (String × Content) → Bool
  | [], [] => true
  | (k, v) :: as', (k', v') :: bs' => k == k' && Content.beq v v' && Content.beqObj as' bs'
  | _, _ => false

end

mutual

theorem Content.beq_refl : (c : Content) → Content.beq c c = true
  | .undefV => rfl
  | .nullV => rfl
  | .boolV b => by simp [Content.beq]
  | .numV n => by simp [Content.beq]
  | .strV s => by simp [Content.beq]
  | .arrV xs => by simp [Content.beq, Content.beqList_refl xs]
  | .objV es => by simp [Content.beq, Content.beqObj_refl es]

theorem Content.beqList_refl : (l : List Content) → Content.beqList l l = true
  | [] => rfl
  | a :: as' => by simp [Content.beqList, Content.beq_refl a, Content.beqList_refl as']

theorem Content.beqObj_refl : (l : List (String × Content)) → Content.beqObj l l = true
  | [] => rfl
  | (k, v) :: as' => by
      simp [Content.beqObj, Content.beq_refl v, Content.beqObj_refl as']

end

mutual

theorem Content.eq_of_beq : {a b : Content} → Content.beq a b = true → a = b
  | .undefV, .undefV, _ => rfl
  | .nullV, .nullV, _ => rfl
  | .boolV _, .boolV _, h => by
      simp only [Content.beq, beq_iff_eq] at h; exact h ▸ rfl
  | .numV _, .numV _, h => by
      simp only [Content.beq, beq_iff_eq] at h; exact h ▸ rfl
  | .strV _, .strV _, h => by
      simp only [Content.beq, beq_iff_eq] at h; exact h ▸ rfl
  | .arrV a, .arrV b, h => by
      rw [Content.eqList_of_beq (a := a) (b := b) h]
  | .objV a, .objV b, h => by
      rw [Content.eqObj_of_beq (a := a) (b := b) h]

theorem Content.eqList_of_beq : {a b : List Content} → Content.beqList a b = true → a = b
  | [], [], _ => rfl
  | x :: xs, y :: ys, h => by
      simp only [Content.beqList, Bool.and_eq_true] at h
      rw [Content.eq_of_beq h.1, Content.eqList_of_beq h.2]

theorem Content.eqObj_of_beq :
    {a b : List (String × Content)} → Content.beqObj a b = true → a = b
  | [], [], _ => rfl
  | (k, v) :: xs, (k', v') :: ys, h => by
      simp only [Content.beqObj, Bool.and_eq_true, beq_iff_eq] at h
      rw [h.1.1, Content.eq_of_beq h.1.2, Content.eqObj_of_beq h.2]

end

instance : DecidableEq Content := fun a b =>
  if h : Content.beq a b = true then
    isTrue (Content.eq_of_beq h)
  else
    isFalse (fun he => h (he ▸ Content.beq_refl a))

/-- JS truthiness: `undefined`, `null`, `false`, `0`, and `''` are falsy;
every other value (including any array or object) is truthy. -/
def Content.truthy : Content → Bool
  | .undefV => false
  | .nullV => false
  | .boolV b => b
  | .numV n => n != 0
  | .strV s => s ≠ ""
  | .arrV _ => true
  | .objV _ => true

mutual

/-- JS string coercion `String(v)` / `v.toString()` on the fragment used by
the program (template literals, property-key coercion, header rendering). -/
def Content.toStr : Content → String
  | .undefV => "undefined"
  | .nullV => "null"
  | .boolV b => if b then "true" else "false"
  | .numV n => toString n
  | .strV s => s
  | .arrV xs => String.intercalate "," (Content.toStrList xs)
  | .objV _ => "[object Object]"

/-- String coercion of each element of an array (for `Array.prototype.toString`). -/
def Content.toStrList : List Content → List String
  | [] => []
  | x :: xs => Content.toStr x :: Content.toStrList xs

end

/-- The `c?.value ?? ''` read used on every grid cell: `null` and `undefined`
collapse to the empty string, everything else passes through. -/
def valueOrEmpty : Content → Content
  | .undefV => .strV ""
  | .nullV => .strV ""
  | c => c

/-- JS property access `c?.[k]` (equivalently `c?.k`): field lookup on an
object, `undefined` on a missing key or on any non-object base.  The
optional-chaining and plain accesses the program performs agree with this on
the keys involved (`type`, `run`, `status`, `run_id`, `output`, `content`,
`is_active`), none of which is a built-in property of a JS primitive. -/
def jsGet (c : Content) (k : String) : Content :=
  match c with
  | .objV es =>
    match es.lookup k with
    | some v => v
    | none => .undefV
  | _ => .undefV

/-- One `obj[k] = v` assignment on a JS object entry list: overwrite in place
if the key is present, append otherwise (JS property insertion order). -/
def objSet (m : List (String × α)) (k : String) (v : α) : List (String × α) :=
  if m.any (fun p => p.1 = k) then
    m.map (fun p => if p.1 = k then (k, v) else p)
  else
    m ++ [(k, v)]

/-- `Object.fromEntries`: insert each (key, value) pair in order, later
occurrences of a key overwriting the earlier slot in place. -/
def objFromEntries (items : List (String × α)) : List (String × α) :=
  items.foldl (fun m p => objSet m p.1 p.2) []

/-- The `JSON.stringify` / `JSON.parse` round trip applied to an object whose
values may be `undefined`: properties holding `undefined` are omitted from
the serialized form, so they vanish from the delivered object. -/
def jsonDropUndefined (m : List (String × Option α)) : List (String × α) :=
  m.filterMap (fun p => p.2.map (fun v => (p.1, v)))

/-- `.trim()` on a character list: drop whitespace from both ends.  (Defined
charwise so that concrete proofs can evaluate; `String.trim` agrees with it.) -/
def trimChars (l : List Char) : List Char :=
  ((l.dropWhile Char.isWhitespace).reverse.dropWhile Char.isWhitespace).reverse

/-- `norm` (page.tsx lines 22-24):
`(s || '').toLowerCase().replace(/[^a-z0-9]+/g, '').trim()` — lowercase,
strip every character that is not a lowercase letter or digit, trim.  Used
for fuzzy header matching.  (`String.toLower` is `Char.toLower` mapped over
the characters; it is written charwise here so proofs can evaluate.) -/
def norm (s : String) : String :=
  String.mk (trimChars ((s.data.map Char.toLower).filter
    (fun c => ('a' ≤ c ∧ c ≤ 'z') ∨ ('0' ≤ c ∧ c ≤ '9'))))

/-- The spreadsheet grid: row 0 is the header row.  A cell is represented by
its `value`; the `readOnly` / `className` presentation attributes play no
role in the claims. -/
abbrev Grid := List (List Content)

/-- The `headers` memo: `(data[0] || []).map((c) => (c?.value ?? '').toString())`. -/
def headersOf (g : Grid) : List String :=
  (g.headD []).map (fun c => (valueOrEmpty c).toStr)

/-- Lookup in the `headerIndex` memo: `headers.forEach((h, i) => (map[norm(h)] = i))`
followed by `map[key]`.  Because each assignment overwrites, the result is the
index of the LAST header whose normalisation equals `key`. -/
def headerIndexGet (headers : List String) (key : String) : Option Nat :=
  headers.enum.foldl (fun acc p => if norm p.2 = key then some p.1 else acc) none

/-- `rowArr[col] = { ...(rowArr[col] || {}), value: v }`: set index `col` of a
JS array, extending it with holes (`undefined`) when `col` is past the end. -/
def listSetPad (l : List Content) (i : Nat) (v : Content) : List Content :=
  if i < l.length then l.set i v
  else l ++ List.replicate (i - l.length) Content.undefV ++ [v]

/-- Write value `v` into cell `(row, col)` of the grid.  When `row` is out of
range the write is lost, exactly as in the source, where
`const rowArr = next[row] || []` makes the mutation land on a fresh array
that is never stored back. -/
def setCellValue (g : Grid) (row col : Nat) (v : Content) : Grid :=
  if row < g.length then g.set row (listSetPad (g.getD row []) col v) else g

/-- The `tCols` local of `applyRowResult` (page.tsx lines 153-158): the given
`targetCols` when non-empty, otherwise the target headers resolved through
`headerIndex` with non-matches (`Number.isInteger` filter) dropped. -/
def tColsOf (headers : List String) (targetHeaders : List String)
    (targetCols : List Nat) : List Nat :=
  if targetCols ≠ [] then targetCols
  else targetHeaders.filterMap (fun h => headerIndexGet headers (norm h))

/-- The per-key column resolution of `applyRowResult` (page.tsx lines
160-167): first `headerIndex[norm(k)]`, then — if that misses and
`targetHeaders` is non-empty — the first target header with the same
normalisation, mapped through the parallel `tCols` (out-of-range access
gives `undefined`, i.e. `none`). -/
def resolveCol (headers : List String) (targetHeaders : List String)
    (tCols : List Nat) (k : String) : Option Nat :=
  match headerIndexGet headers (norm k) with
  | some c => some c
  | none =>
    if targetHeaders ≠ [] then
      match targetHeaders.findIdx? (fun th => norm th = norm k) with
      | some idx => tCols[idx]?
      | none => none
    else none

/-- The resolved column together with the final write guard
`Number.isInteger(col) && col >= 0 && col < headerRow.length`
(page.tsx line 169); columns are naturals so only the upper bound remains. -/
def resolveColChecked (headers : List String) (targetHeaders : List String)
    (tCols : List Nat) (headerRowLen : Nat) (k : String) : Option Nat :=
  match resolveCol headers targetHeaders tCols k with
  | some c => if c < headerRowLen then some c else none
  | none => none

/-- Result of one `applyRowResult` call: the updated grid, the cells passed to
`clearPending` (one per matched output key, in order), and the number of
`setSuccessCount(prev => prev + 1)` increments. -/
structure ApplyOut where
  grid : Grid
  cleared : List (Nat × Nat)
  succ : Nat
deriving Repr, DecidableEq

/-- `applyRowResult` (page.tsx lines 142-183).  A payload that is not a plain
non-array object contributes no entries (`content && typeof content ===
'object' && !Array.isArray(content) ? content : {}`); each entry of the
object is resolved to a column and, when resolution and the bounds guard
succeed, the value is written, the cell is cleared from pending and the
success count is bumped.  `headers` / `headerRow` are both taken from row 0
of the grid, as in the source (the claims only ever write rows ≥ 1, so the
header row is stable across the loop). -/
def applyRowResult (g : Grid) (row : Nat) (content : Content)
    (targetHeaders : List String) (targetCols : List Nat) : ApplyOut :=
  let obj : List (String × Content) :=
    match content with
    | .objV es => es
    | _ => []
  let headers := headersOf g
  let headerRowLen := (g.headD []).length
  let tCols := tColsOf headers targetHeaders targetCols
  obj.foldl
    (fun acc p =>
      match resolveColChecked headers targetHeaders tCols headerRowLen p.1 with
      | some c =>
        { grid := setCellValue acc.grid row c p.2,
          cleared := acc.cleared ++ [(row, c)],
          succ := acc.succ + 1 }
      | none => acc)
    { grid := g, cleared := [], succ := 0 }

/-! ### Selection and the job-descriptor builder -/

/-- A grid coordinate (`Point` in page.tsx). -/
structure Point where
  row : Nat
  column : Nat
deriving Repr, DecidableEq

/-- A selection rectangle (`Range` in page.tsx); the source's `end` field is
called `stop` here because `end` is reserved in Lean. -/
structure Range where
  start : Point
  stop : Point
deriving Repr, DecidableEq

/-- The `selectedCells` list built by `enrich` (page.tsx lines 273-276):
every `(r, c)` with `startRow ≤ r ≤ endRow`, `startCol ≤ c ≤ endCol`,
rows outer, columns inner. -/
def selCellsList (startRow endRow startCol endCol : Nat) : List (Nat × Nat) :=
  (List.range' startRow (endRow + 1 - startRow)).flatMap (fun r =>
    (List.range' startCol (endCol + 1 - startCol)).map (fun c => (r, c)))

/-- One element of the `rowsPayload` array `enrich` submits (page.tsx lines
284-289). -/
structure RowPayload where
  row : Nat
  context : List (String × Content)
  targetHeaders : List String
  targetCols : List Nat
deriving Repr, DecidableEq

/-- The `rowsPayload` construction of `enrich` (page.tsx lines 259-298):
`startRow = max(1, range.start.row)`, `endRow = max(startRow, range.end.row)`,
one payload per row of `[startRow, endRow]`, whose context is
`Object.fromEntries(headersRow.map((h, i) => [h, rowVals[i]]))` and whose
target columns/headers are the selected column span.  A `headersRow[c]`
access past the header row yields JS `undefined`; it is rendered here as
`""` (both are falsy and normalise to the same key, and every claim concerns
in-range columns). -/
def buildRowsPayload (dataG : Grid) (r : Range) : List RowPayload :=
  let startRow := max 1 r.start.row
  let endRow := max startRow r.stop.row
  let startCol := r.start.column
  let endCol := r.stop.column
  let headersRow := headersOf dataG
  (List.range' startRow (endRow + 1 - startRow)).map (fun ri =>
    let rowVals := (dataG.getD ri []).map valueOrEmpty
    let context := objFromEntries
      (headersRow.enum.map (fun p => (p.2, rowVals.getD p.1 Content.undefV)))
    let tCols := List.range' startCol (endCol + 1 - startCol)
    let tHeaders := tCols.map (fun c => headersRow.getD c "")
    { row := ri, context := context, targetHeaders := tHeaders, targetCols := tCols })

/-! ### Batch submitter: correlation table and output schemas (POST handler) -/

/-- A `run_map` entry `{row, targetCols, targetHeaders}` (page.tsx /
route.ts `RunMapEntry`). -/
structure RunMapEntry where
  row : Nat
  targetCols : List Nat
  targetHeaders : List String
deriving Repr, DecidableEq

/-- The array the POST handler feeds to `Object.fromEntries` (route.ts
lines 795-801):
`run_ids.map((rid, i) => rid && rows[i] ? [rid, {...}] : []).filter(Boolean)`.
A run id is modelled as `Option String` (`none` = JS `undefined`); the
condition `rid && rows[i]` requires a truthy (non-empty, defined) id AND a
positional row.  `.filter(Boolean)` removes nothing, because the empty array
`[]` is truthy in JS; `Object.fromEntries` then destructures `[]` as
`[undefined, undefined]`, i.e. the property key `"undefined"` (after
`ToPropertyKey`) with value `undefined` — modelled as `("undefined", none)`.
A kept pair carries value `some entry`. -/
def runMapItems (run_ids : List (Option String)) (rows : List RowPayload) :
    List (String × Option RunMapEntry) :=
  run_ids.enum.map (fun p =>
    match p.2, rows[p.1]? with
    | some rid, some rp =>
      if rid ≠ "" then (rid, some ⟨rp.row, rp.targetCols, rp.targetHeaders⟩)
      else ("undefined", none)
    | _, _ => ("undefined", none))

/-- The in-memory `run_map` object built by the POST handler. -/
def runMapBuilt (run_ids : List (Option String)) (rows : List RowPayload) :
    List (String × Option RunMapEntry) :=
  objFromEntries (runMapItems run_ids rows)

/-- The `run_map` actually delivered in the submission response:
`JSON.stringify({ taskgroup_id, run_map })` omits properties whose value is
`undefined`, and the client parses the result (page.tsx line 322). -/
def runMapDelivered (run_ids : List (Option String)) (rows : List RowPayload) :
    List (String × RunMapEntry) :=
  jsonDropUndefined (runMapBuilt run_ids rows)

/-- Modelled from the claim's words (refinement target for C2): the table
that contains exactly one entry per returned job id that is non-empty and
has a positional JobSpec, mapping `jobIds[i]` to the data of `jobSpecs[i]`,
with every other returned id dropped entirely. -/
def specRunMap (run_ids : List (Option String)) (rows : List RowPayload) :
    List (String × RunMapEntry) :=
  run_ids.enum.filterMap (fun p =>
    match p.2, rows[p.1]? with
    | some rid, some rp =>
      if rid ≠ "" then some (rid, ⟨rp.row, rp.targetCols, rp.targetHeaders⟩)
      else none
    | _, _ => none)

/-- One property of the JSON schema: `{ type: 'string', description: ... }`. -/
structure PropSchema where
  typ : String
  description : String
deriving Repr, DecidableEq

/-- The object-level JSON schema of `buildExplicitSchema`. -/
structure JsonSchemaObj where
  typ : String
  properties : List (String × PropSchema)
  required : List String
  additionalProperties : Bool
deriving Repr, DecidableEq

/-- The `output_schema` value `{ type: 'json', json_schema: {...} }`. -/
structure OutputSchema where
  typ : String
  json_schema : JsonSchemaObj
deriving Repr, DecidableEq

/-- `buildExplicitSchema` (route.ts lines 762-773): a closed object schema
whose properties come from the target headers (via `Object.fromEntries`),
whose `required` list is the `targetHeaders` array itself, and with
`additionalProperties: false`. -/
def buildExplicitSchema (targetHeaders : List String) : OutputSchema :=
  { typ := "json",
    json_schema :=
      { typ := "object",
        properties := objFromEntries (targetHeaders.map (fun h =>
          (h, { typ := "string",
                description := "Value for " ++ h ++ " column. Return null if not found." }))),
        required := targetHeaders,
        additionalProperties := false } }

/-- One element of the `inputs` array submitted to the runs endpoint
(route.ts lines 775-780).  The prompt string built by `buildPrompt` is kept
as its two arguments (row context and target headers); no claim concerns the
prompt's text. -/
structure RunInput where
  promptRowCtx : List (String × Content)
  promptTargets : List String
  task_spec : OutputSchema
  processor : String
  metadataRow : Nat
  metadataIndex : Nat
deriving Repr, DecidableEq

/-- The `inputs` construction: `rows.map((r, index) => ({...}))`. -/
def inputsOf (rows : List RowPayload) (processor : String) : List RunInput :=
  rows.enum.map (fun p =>
    { promptRowCtx := p.2.context,
      promptTargets := p.2.targetHeaders,
      task_spec := buildExplicitSchema p.2.targetHeaders,
      processor := processor,
      metadataRow := p.2.row,
      metadataIndex := p.1 })

/-! ### Event reconciler and lifecycle state (client) -/

/-- The per-run client state the reconciler and lifecycle controller mutate:
grid, pending set (cell coordinates, mirroring the `"row:col"` key set),
busy flag, counters, whether the 10-minute timeout is still armed
(`clearTimeout` has not run and the callback has not fired), whether the
EventSource is open, the current task-group id, and whether an elapsed time
was recorded (`lastEnrichTime !== null`). -/
structure RunState where
  grid : Grid
  pending : Finset (Nat × Nat)
  busy : Bool
  successCount : Nat
  errorCount : Nat
  timerArmed : Bool
  esOpen : Bool
  groupId : Option String
  timeRecorded : Bool
deriving DecidableEq

/-- `handleEventData` (page.tsx lines 331-374), reading the parsed event
object `d` with the source's optional-chaining accesses.  `rm` is the
client's `run_map`, `sel` the `selectedCells` list captured by the closure. -/
def handleEventData (rm : List (String × RunMapEntry)) (sel : List (Nat × Nat))
    (d : Content) (s : RunState) : RunState :=
  let eventType := jsGet d "type"
  if eventType = Content.strV "task_run.state" ∨ eventType = Content.strV "task_run" then
    let run := jsGet d "run"
    let runStatus := jsGet run "status"
    let runId := jsGet run "run_id"
    if runStatus = Content.strV "completed" ∧ (jsGet d "output").truthy then
      let output := jsGet d "output"
      let out := if (jsGet output "content").truthy then jsGet output "content" else output
      if runId.truthy then
        match rm.lookup runId.toStr with
        | some meta =>
          let a := applyRowResult s.grid meta.row out meta.targetHeaders meta.targetCols
          { s with grid := a.grid,
                   pending := s.pending \ a.cleared.toFinset,
                   successCount := s.successCount + a.succ }
        | none => s
      else s
    else if runStatus = Content.strV "failed" then
      let s1 := { s with errorCount := s.errorCount + 1 }
      if runId.truthy then
        match rm.lookup runId.toStr with
        | some meta =>
          { s1 with pending :=
              s1.pending \ (meta.targetCols.map (fun c => (meta.row, c))).toFinset }
        | none => s1
      else s1
    else s
  else if eventType = Content.strV "task_group_status" then
    if jsGet (jsGet d "status") "is_active" = Content.boolV false then
      { s with esOpen := false,
               pending := s.pending \ sel.toFinset,
               timerArmed := false,
               timeRecorded := true,
               busy := false,
               groupId := none }
    else s
  else s

/-- `cancelEnrichment` (page.tsx lines 214-250): a no-op unless a task group
id is stored and the run is busy; otherwise it closes the EventSource,
empties the pending set, clears busy / group id / counters / elapsed time.
It does NOT touch the `enrich`-closure timeout, which stays armed. -/
def cancelEnrichment (s : RunState) : RunState :=
  if s.groupId = none ∨ s.busy = false then s
  else { s with esOpen := false, pending := ∅, busy := false, groupId := none,
                timeRecorded := false, successCount := 0, errorCount := 0 }

/-- The 10-minute `setTimeout` callback (page.tsx lines 415-421): closes the
stream, clears the selected cells from pending, clears busy and the group
id.  Firing consumes the timer. -/
def timeoutFire (sel : List (Nat × Nat)) (s : RunState) : RunState :=
  { s with esOpen := false, pending := s.pending \ sel.toFinset, busy := false,
           groupId := none, timerArmed := false }

/-- The (wrapped) `es.onerror` handler (page.tsx lines 405-412 and 423-427):
clears the timeout, closes the stream, clears busy / group id and the
selected cells from pending. -/
def streamErrorFire (sel : List (Nat × Nat)) (s : RunState) : RunState :=
  { s with timerArmed := false, esOpen := false, busy := false, groupId := none,
           pending := s.pending \ sel.toFinset }

/-- The `catch` branch of `enrich` (page.tsx lines 428-433), reached when
submission fails: clears busy / group id and the selected cells from
pending.  (The timeout has not been created on this path; `timerArmed` is
left as it was, i.e. `false`.) -/
def submitFail (sel : List (Nat × Nat)) (s : RunState) : RunState :=
  { s with busy := false, groupId := none, pending := s.pending \ sel.toFinset }

/-- The state mutations of a successful `enrich` submission (page.tsx lines
278-282, 301, 326-329, 415-421): seed pending with every selected cell,
reset the counters, set busy, store the group id, open the stream, arm the
10-minute timeout. -/
def initRun (sel : List (Nat × Nat)) (gid : String) (s : RunState) : RunState :=
  { s with pending := s.pending ∪ sel.toFinset, busy := true, successCount := 0,
           errorCount := 0, timerArmed := true, esOpen := true, groupId := some gid }

/-! ### Streaming transport (GET SSE proxy) -/

/-- One parsed SSE frame of the proxy loop (route.ts lines 896-909): the
`event:` line, the `id:` line, and the parsed `data:` payload (a JSON value,
or the raw string — a non-object `Content` — when parsing fails). -/
structure Frame where
  eventType : String
  eventId : String
  data : Content
deriving Repr, DecidableEq

/-- The backfill guard (route.ts lines 914-918): a `task_run.state` frame
whose payload reports a completed run with a truthy `run_id` and no truthy
`output`. -/
def isCompletedNoOutput (f : Frame) : Bool :=
  (f.eventType == "task_run.state") &&
  (jsGet f.data "type" == Content.strV "task_run.state") &&
  (jsGet (jsGet f.data "run") "status" == Content.strV "completed") &&
  (jsGet (jsGet f.data "run") "run_id").truthy &&
  !(jsGet f.data "output").truthy

/-- The group-inactive guard (route.ts lines 941-942). -/
def isGroupInactive (f : Frame) : Bool :=
  (f.eventType == "task_group_status") &&
  (jsGet (jsGet f.data "status") "is_active" == Content.boolV false)

/-- `const runId = (data.run as Record<string, unknown>).run_id as string`. -/
def frameRunId (f : Frame) : String :=
  (jsGet (jsGet f.data "run") "run_id").toStr

/-- The result-backfill fetch (route.ts lines 811-814 and 924-934):
`fetchRunResult` returns the parsed result or `null` on any error (it
catches internally and never throws), and the proxy uses `result?.output`
only when truthy.  `fetchRes` abstracts the remote result endpoint. -/
def fetchOutput (fetchRes : String → Option Content) (rid : String) : Option Content :=
  match fetchRes rid with
  | some r => if (jsGet r "output").truthy then some (jsGet r "output") else none
  | none => none

/-- `{ ...data, output: result.output }`: set the `output` property of the
(object) payload.  The guard `isCompletedNoOutput` guarantees the payload is
an object here; on a non-object the spread the source performs is never
reached, so the fallback branch is unreachable. -/
def jsSetField (c : Content) (k : String) (v : Content) : Content :=
  match c with
  | .objV es => .objV (objSet es k v)
  | _ => c

/-- What the proxy loop body produces: the frames written to the consumer,
whether `shouldExit` was raised, and the run ids for which a result fetch
was performed. -/
structure FrameOut where
  frames : List Frame
  exitFlag : Bool
  fetched : List String
deriving DecidableEq

/-- Handling of a single frame of the proxy loop (route.ts lines 911-958):
a completed-run frame without output triggers exactly one result fetch and
is re-emitted augmented (fetch produced a truthy output) or unchanged
(fetch failed or had no output); a group-inactive frame is emitted and
raises the exit flag; every other frame passes through. -/
def handleFrame (fetchRes : String → Option Content) (f : Frame) : FrameOut :=
  if isCompletedNoOutput f then
    let rid := frameRunId f
    match fetchOutput fetchRes rid with
    | some out =>
      { frames := [{ f with data := jsSetField f.data "output" out }],
        exitFlag := false, fetched := [rid] }
    | none => { frames := [f], exitFlag := false, fetched := [rid] }
  else if isGroupInactive f then
    { frames := [f], exitFlag := true, fetched := [] }
  else
    { frames := [f], exitFlag := false, fetched := [] }

/-- One pass of the inner `for (const eventStr of events)` loop over the
complete frames of a single read: every frame of the batch is handled in
order — including the ones that follow a group-inactive frame — and the
sticky `shouldExit` flag is the disjunction of the per-frame flags. -/
def processBatch (fetchRes : String → Option Content) (fs : List Frame) : FrameOut :=
  fs.foldl
    (fun acc f =>
      let r := handleFrame fetchRes f
      { frames := acc.frames ++ r.frames,
        exitFlag := acc.exitFlag || r.exitFlag,
        fetched := acc.fetched ++ r.fetched })
    { frames := [], exitFlag := false, fetched := [] }

/-- The outer `while (true)` read loop (route.ts lines 881-966) at the level
of parsed frames: each read contributes one batch of complete frames; after
a batch, `if (shouldExit) break` stops reading further batches.  The
consumer is modelled as connected throughout (`safeEnqueue` succeeding);
the claims do not concern disconnection. -/
def transport (fetchRes : String → Option Content) : List (List Frame) → List Frame
  | [] => []
  | b :: rest =>
    let r := processBatch fetchRes b
    if r.exitFlag then r.frames else r.frames ++ transport fetchRes rest

/-! ### Concrete instances used by witnesses and counterexamples -/

/-- A small grid in the shape of the application's initial data. -/
def gInit : Grid :=
  [[.strV "Company", .strV "Stage", .strV "Employee Count"],
   [.strV "Mintlify", .strV "", .strV ""]]

/-- A grid with two headers whose normalisations collide
(`norm "employee_count" = norm "EmployeeCount" = "employeecount"`). -/
def gDup : Grid :=
  [[.strV "employee_count", .strV "EmployeeCount"],
   [.strV "", .strV ""]]

/-- A one-entry correlation table: job `"a"` targets cell (1, 1). -/
def rm0 : List (String × RunMapEntry) := [("a", ⟨1, [1], ["Stage"]⟩)]

/-- A mid-run state: busy, one pending cell, timer armed, stream open. -/
def s0 : RunState :=
  { grid := gInit, pending := {(1, 1)}, busy := true, successCount := 0,
    errorCount := 0, timerArmed := true, esOpen := true, groupId := some "g",
    timeRecorded := false }

/-- An idle state (no run in progress). -/
def sIdle : RunState :=
  { grid := gInit, pending := ∅, busy := false, successCount := 0,
    errorCount := 0, timerArmed := false, esOpen := false, groupId := none,
    timeRecorded := false }

/-- A `task_run.state` event reporting a failed run whose id `"zzz"` does not
occur in `rm0`. -/
def evFailedUnknown : Content :=
  .objV [("type", .strV "task_run.state"),
         ("run", .objV [("status", .strV "failed"), ("run_id", .strV "zzz")])]

/-- A `task_run.state` event reporting a failed run with the known id `"a"`. -/
def evFailedKnown : Content :=
  .objV [("type", .strV "task_run.state"),
         ("run", .objV [("status", .strV "failed"), ("run_id", .strV "a")])]

/-- A `task_group_status` event with `is_active: false`. -/
def evGroupInactive : Content :=
  .objV [("type", .strV "task_group_status"),
         ("status", .objV [("is_active", .boolV false)])]

/-- A group-inactive SSE frame. -/
def giFrame : Frame :=
  ⟨"task_group_status", "", .objV [("status", .objV [("is_active", .boolV false)])]⟩

/-- An ordinary pass-through SSE frame (a still-running task run). -/
def othFrame : Frame :=
  ⟨"task_run.state", "",
   .objV [("type", .strV "task_run.state"),
          ("run", .objV [("status", .strV "running")])]⟩

/-- A completed-run frame carrying no output (triggers the backfill). -/
def cnoFrame : Frame :=
  ⟨"task_run.state", "id1",
   .objV [("type", .strV "task_run.state"),
          ("run", .objV [("status", .strV "completed"), ("run_id", .strV "r1")])]⟩

/-- A result endpoint that always fails (`fetchRunResult` returning `null`). -/
def fetchNone : String → Option Content := fun _ => none

/-- A sample row payload. -/
def rp0 : RowPayload :=
  { row := 1, context := [("Company", .strV "Mintlify")],
    targetHeaders := ["Stage"], targetCols := [1] }

/-- A normalized selection confined to the header row (row 0). -/
def selHeaderOnly : Range := ⟨⟨0, 0⟩, ⟨0, 0⟩⟩

/-- A one-column grid whose header is literally `"employee_count"`. -/
def gEx : Grid := [[.strV "employee_count"], [.strV ""]]

/-- A normalized selection of row 1, columns 0-1 of `gInit`. -/
def rSel : Range := ⟨⟨1, 0⟩, ⟨1, 1⟩⟩

/-! ## Helper lemmas -/

theorem objSet_of_not_mem (m : List (String × α)) (k : String) (v : α)
    (h : k ∉ m.map Prod.fst) : objSet m k v = m ++ [(k, v)] := by
  unfold objSet
  rw [if_neg]
  simp only [List.any_eq_true, decide_eq_true_eq, not_exists]
  intro p hp
  exact h (List.mem_map.mpr ⟨p, hp.1, hp.2⟩)

theorem mem_keys_objSet (m : List (String × α)) (k k' : String) (v : α) :
    k' ∈ (objSet m k v).map Prod.fst ↔ k' ∈ m.map Prod.fst ∨ k' = k := by
  unfold objSet
  split
  · rename_i hany
    have hk : k ∈ m.map Prod.fst := by
      simp only [List.any_eq_true, decide_eq_true_eq] at hany
      obtain ⟨p, hp, hpk⟩ := hany
      exact List.mem_map.mpr ⟨p, hp, hpk⟩
    have hkeys : (m.map (fun p => if p.1 = k then (k, v) else p)).map Prod.fst
        = m.map Prod.fst := by
      rw [List.map_map]
      refine List.map_congr_left (fun p _ => ?_)
      by_cases hp : p.1 = k <;> simp [hp]
    rw [hkeys]
    constructor
    · exact fun h => Or.inl h
    · rintro (h | h)
      · exact h
      · exact h ▸ hk
  · simp [List.map_append]

theorem mem_keys_foldl_objSet (items : List (String × α)) :
    ∀ (acc : List (String × α)) (k : String),
      (k ∈ ((items.foldl (fun m p => objSet m p.1 p.2) acc).map Prod.fst)) ↔
        (k ∈ acc.map Prod.fst ∨ k ∈ items.map Prod.fst) := by
  induction items with
  | nil => simp
  | cons x xs ih =>
    intro acc k
    simp only [List.foldl_cons, ih, mem_keys_objSet, List.map_cons, List.mem_cons]
    tauto

theorem mem_keys_objFromEntries (items : List (String × α)) (k : String) :
    k ∈ (objFromEntries items).map Prod.fst ↔ k ∈ items.map Prod.fst := by
  unfold objFromEntries
  simpa using mem_keys_foldl_objSet items [] k

theorem foldl_objSet_of_nodup (items : List (String × α)) :
    ∀ acc : List (String × α),
      (items.map Prod.fst).Nodup →
      (∀ k ∈ items.map Prod.fst, k ∉ acc.map Prod.fst) →
      items.foldl (fun m p => objSet m p.1 p.2) acc = acc ++ items := by
  induction items with
  | nil => intro acc _ _; simp
  | cons x xs ih =>
    intro acc hnd hdisj
    have hnd' : (x.1 :: xs.map Prod.fst).Nodup := by simpa using hnd
    have hhead : x.1 ∉ xs.map Prod.fst := (List.nodup_cons.mp hnd').1
    simp only [List.foldl_cons]
    rw [objSet_of_not_mem _ _ _ (hdisj x.1 (by simp))]
    rw [ih (acc ++ [(x.1, x.2)]) hnd'.of_cons ?_]
    · simp
    · intro k hk
      simp only [List.map_append, List.mem_append, List.map_cons, List.map_nil,
        List.mem_cons, List.not_mem_nil, or_false, not_or]
      refine ⟨hdisj k (by simp [hk]), ?_⟩
      intro hkx
      exact hhead (hkx ▸ hk)

theorem objFromEntries_of_nodup (items : List (String × α))
    (hnd : (items.map Prod.fst).Nodup) : objFromEntries items = items := by
  unfold objFromEntries
  simpa using foldl_objSet_of_nodup items [] hnd (by simp)

theorem lookup_get_of_nodup (items : List (String × α))
    (hnd : (items.map Prod.fst).Nodup) (j : Fin items.length) :
    List.lookup (items.get j).1 items = some (items.get j).2 := by
  induction items with
  | nil => exact absurd j.isLt (by simp)
  | cons x xs ih =>
    obtain ⟨xk, xv⟩ := x
    have hnd' : (xk :: xs.map Prod.fst).Nodup := by simpa using hnd
    match j with
    | ⟨0, h⟩ => simp [List.lookup]
    | ⟨n + 1, h⟩ =>
      have hn : n < xs.length := by simpa using h
      have hne : (xs.get ⟨n, hn⟩).1 ≠ xk := by
        intro he
        exact (List.nodup_cons.mp hnd').1
          (he ▸ List.mem_map.mpr ⟨_, List.get_mem _ _ _, rfl⟩)
      have hbeq : ((xs.get ⟨n, hn⟩).1 == xk) = false := by
        simpa using hne
      simp only [List.get_cons_succ, List.lookup_cons, hbeq]
      exact ih hnd'.of_cons ⟨n, hn⟩

theorem foldl_if_find_last (key : String) (l : List (Nat × String)) :
    ∀ acc : Option Nat,
      l.foldl (fun a q => if norm q.2 = key then some q.1 else a) acc =
        match l.reverse.find? (fun q => norm q.2 == key) with
        | some q => some q.1
        | none => acc := by
  induction l using List.reverseRecOn with
  | nil => intro acc; simp
  | append_singleton l x ih =>
    intro acc
    rw [List.foldl_append]
    simp only [List.foldl_cons, List.foldl_nil, List.reverse_append,
      List.reverse_singleton, List.singleton_append]
    by_cases hx : norm x.2 = key
    · rw [List.find?_cons_of_pos _ (by simpa using hx)]
      simp [hx]
    · rw [List.find?_cons_of_neg _ (by simpa using hx)]
      rw [if_neg hx, ih acc]

theorem headerIndexGet_eq_find (headers : List String) (key : String) :
    headerIndexGet headers key =
      (headers.enum.reverse.find? (fun q => norm q.2 == key)).map Prod.fst := by
  unfold headerIndexGet
  rw [foldl_if_find_last]
  cases h : headers.enum.reverse.find? (fun q => norm q.2 == key) <;> simp [h]

theorem jsonDrop_foldl_objSet (items : List (String × Option α)) :
    ∀ acc : List (String × Option α),
      (∀ p ∈ items, p.2 = none → p.1 = "undefined") →
      ((jsonDropUndefined items).map Prod.fst).Nodup →
      "undefined" ∉ (jsonDropUndefined items).map Prod.fst →
      (∀ p ∈ acc, p.1 = "undefined" → p.2 = none) →
      (∀ k ∈ acc.map Prod.fst, k ∉ (jsonDropUndefined items).map Prod.fst) →
      jsonDropUndefined (items.foldl (fun m p => objSet m p.1 p.2) acc) =
        jsonDropUndefined acc ++ jsonDropUndefined items := by
  induction items with
  | nil =>
    intro acc _ _ _ _ _
    simp [jsonDropUndefined]
  | cons x xs ih =>
    obtain ⟨k, v⟩ := x
    intro acc hbad hnd hund hacc hdisj
    cases v with
    | some w =>
      have hdropcons :
          jsonDropUndefined ((k, some w) :: xs) = (k, w) :: jsonDropUndefined xs := by
        simp [jsonDropUndefined]
      rw [hdropcons, List.map_cons] at hnd hund hdisj
      simp only [List.mem_cons, not_or] at hund
      have hknotacc : k ∉ acc.map Prod.fst := by
        intro hk
        exact hdisj k hk (by simp)
      have hkund : k ≠ "undefined" := fun hk => hund.1 hk.symm
      have hknotxs : k ∉ (jsonDropUndefined xs).map Prod.fst :=
        (List.nodup_cons.mp hnd).1
      simp only [List.foldl_cons]
      rw [objSet_of_not_mem _ _ _ hknotacc]
      rw [ih (acc ++ [(k, some w)]) (fun p hp => hbad p (List.mem_cons_of_mem _ hp))
            hnd.of_cons hund.2 ?hacc ?hdisj]
      · rw [hdropcons]
        simp [jsonDropUndefined, List.filterMap_append]
      case hacc =>
        intro p hp
        rcases List.mem_append.mp hp with h | h
        · exact hacc p h
        · intro hpk
          simp only [List.mem_singleton] at h
          rw [h] at hpk
          exact absurd hpk hkund
      case hdisj =>
        intro k' hk'
        simp only [List.map_append, List.mem_append, List.map_cons, List.map_nil,
          List.mem_cons, List.not_mem_nil, or_false] at hk'
        rcases hk' with h | h
        · exact fun hmem => hdisj k' h (List.mem_cons_of_mem _ hmem)
        · exact h ▸ hknotxs
    | none =>
      have hk : k = "undefined" := hbad (k, none) (by simp) rfl
      subst hk
      have hdropcons :
          jsonDropUndefined (("undefined", (none : Option α)) :: xs) =
            jsonDropUndefined xs := by
        simp [jsonDropUndefined]
      rw [hdropcons] at hnd hund hdisj
      have hbad' : ∀ p ∈ xs, p.2 = none → p.1 = "undefined" :=
        fun p hp => hbad p (List.mem_cons_of_mem _ hp)
      simp only [List.foldl_cons]
      by_cases hmem : "undefined" ∈ acc.map Prod.fst
      · have hrepl :
            objSet acc "undefined" (none : Option α) = acc := by
          unfold objSet
          rw [if_pos]
          · have hpt : ∀ p ∈ acc,
                (if p.1 = "undefined" then (("undefined" : String), (none : Option α))
                 else p) = p := by
              intro p hp
              by_cases hpk : p.1 = "undefined"
              · rw [if_pos hpk]
                have := hacc p hp hpk
                rw [← hpk, ← this]
              · rw [if_neg hpk]
            rw [List.map_congr_left hpt]
            exact List.map_id acc
          · simp only [List.any_eq_true, decide_eq_true_eq]
            obtain ⟨p, hp, hpk⟩ := List.mem_map.mp hmem
            exact ⟨p, hp, hpk⟩
        rw [hrepl, hdropcons]
        exact ih acc hbad' hnd hund hacc hdisj
      · have happ :
            objSet acc "undefined" (none : Option α) =
              acc ++ [("undefined", none)] :=
          objSet_of_not_mem _ _ _ hmem
        rw [happ, hdropcons]
        rw [ih (acc ++ [("undefined", none)]) hbad' hnd hund ?hacc2 ?hdisj2]
        · congr 1
          simp [jsonDropUndefined, List.filterMap_append]
        case hacc2 =>
          intro p hp
          rcases List.mem_append.mp hp with h | h
          · exact hacc p h
          · simp only [List.mem_singleton] at h
            intro _
            rw [h]
        case hdisj2 =>
          intro k' hk'
          simp only [List.map_append, List.mem_append, List.map_cons, List.map_nil,
            List.mem_cons, List.not_mem_nil, or_false] at hk'
          rcases hk' with h | h
          · exact hdisj k' h
          · exact h ▸ hund

theorem jsonDrop_objFromEntries (items : List (String × Option α))
    (hbad : ∀ p ∈ items, p.2 = none → p.1 = "undefined")
    (hnd : ((jsonDropUndefined items).map Prod.fst).Nodup)
    (hund : "undefined" ∉ (jsonDropUndefined items).map Prod.fst) :
    jsonDropUndefined (objFromEntries items) = jsonDropUndefined items := by
  unfold objFromEntries
  have := jsonDrop_foldl_objSet items [] hbad hnd hund (by simp) (by simp)
  simpa [jsonDropUndefined] using this

theorem runMapItems_bad (ids : List (Option String)) (rows : List RowPayload) :
    ∀ p ∈ runMapItems ids rows, p.2 = none → p.1 = "undefined" := by
  intro p hp
  simp only [runMapItems, List.mem_map] at hp
  obtain ⟨q, _, rfl⟩ := hp
  rcases q with ⟨i, rid⟩
  cases rid with
  | none => intro _; rfl
  | some r =>
    cases h : rows[i]? with
    | none => simp [h]
    | some rp =>
      by_cases hr : r = ""
      · simp [h, hr]
      · simp [h, hr]

theorem jsonDrop_runMapItems (ids : List (Option String)) (rows : List RowPayload) :
    jsonDropUndefined (runMapItems ids rows) = specRunMap ids rows := by
  unfold runMapItems specRunMap jsonDropUndefined
  rw [List.filterMap_map]
  congr 1
  funext q
  rcases q with ⟨i, rid⟩
  cases rid with
  | none => rfl
  | some r =>
    cases h : rows[i]? with
    | none => simp [h]
    | some rp =>
      by_cases hr : r = ""
      · simp [h, hr]
      · simp [h, hr]

theorem handleEventData_pending_busy (rm : List (String × RunMapEntry))
    (sel : List (Nat × Nat)) (d : Content) (s : RunState) :
    ((handleEventData rm sel d s).pending ⊆ s.pending) ∧
    ((handleEventData rm sel d s).busy = false → s.busy = true →
      (handleEventData rm sel d s).pending = s.pending \ sel.toFinset) := by
  unfold handleEventData
  by_cases h1 : jsGet d "type" = Content.strV "task_run.state" ∨
      jsGet d "type" = Content.strV "task_run"
  · rw [if_pos h1]
    by_cases h2 : jsGet (jsGet d "run") "status" = Content.strV "completed" ∧
        (jsGet d "output").truthy = true
    · rw [if_pos h2]
      by_cases h3 : (jsGet (jsGet d "run") "run_id").truthy = true
      · rw [if_pos h3]
        cases rm.lookup (jsGet (jsGet d "run") "run_id").toStr with
        | some meta =>
          exact ⟨Finset.sdiff_subset, fun hb hb2 => Bool.noConfusion (hb2 ▸ hb)⟩
        | none =>
          exact ⟨Finset.Subset.refl _, fun hb hb2 => Bool.noConfusion (hb2 ▸ hb)⟩
      · rw [if_neg h3]
        exact ⟨Finset.Subset.refl _, fun hb hb2 => Bool.noConfusion (hb2 ▸ hb)⟩
    · rw [if_neg h2]
      by_cases h4 : jsGet (jsGet d "run") "status" = Content.strV "failed"
      · rw [if_pos h4]
        by_cases h3 : (jsGet (jsGet d "run") "run_id").truthy = true
        · rw [if_pos h3]
          cases rm.lookup (jsGet (jsGet d "run") "run_id").toStr with
          | some meta =>
            exact ⟨Finset.sdiff_subset, fun hb hb2 => Bool.noConfusion (hb2 ▸ hb)⟩
          | none =>
            exact ⟨Finset.Subset.refl _, fun hb hb2 => Bool.noConfusion (hb2 ▸ hb)⟩
        · rw [if_neg h3]
          exact ⟨Finset.Subset.refl _, fun hb hb2 => Bool.noConfusion (hb2 ▸ hb)⟩
      · rw [if_neg h4]
        exact ⟨Finset.Subset.refl _, fun hb hb2 => Bool.noConfusion (hb2 ▸ hb)⟩
  · rw [if_neg h1]
    by_cases h5 : jsGet d "type" = Content.strV "task_group_status"
    · rw [if_pos h5]
      by_cases h6 : jsGet (jsGet d "status") "is_active" = Content.boolV false
      · rw [if_pos h6]
        exact ⟨Finset.sdiff_subset, fun _ _ => rfl⟩
      · rw [if_neg h6]
        exact ⟨Finset.Subset.refl _, fun hb hb2 => Bool.noConfusion (hb2 ▸ hb)⟩
    · rw [if_neg h5]
      exact ⟨Finset.Subset.refl _, fun hb hb2 => Bool.noConfusion (hb2 ▸ hb)⟩

theorem processBatch_eq (fetchRes : String → Option Content) (fs : List Frame) :
    processBatch fetchRes fs =
      { frames := (fs.map (fun f => (handleFrame fetchRes f).frames)).flatten,
        exitFlag := fs.any (fun f => (handleFrame fetchRes f).exitFlag),
        fetched := (fs.map (fun f => (handleFrame fetchRes f).fetched)).flatten } := by
  unfold processBatch
  suffices hgen : ∀ acc : FrameOut,
      fs.foldl
        (fun acc f =>
          let r := handleFrame fetchRes f
          { frames := acc.frames ++ r.frames,
            exitFlag := acc.exitFlag || r.exitFlag,
            fetched := acc.fetched ++ r.fetched }) acc =
      { frames := acc.frames ++ (fs.map (fun f => (handleFrame fetchRes f).frames)).flatten,
        exitFlag := acc.exitFlag || fs.any (fun f => (handleFrame fetchRes f).exitFlag),
        fetched := acc.fetched ++ (fs.map (fun f => (handleFrame fetchRes f).fetched)).flatten } by
    simpa using hgen { frames := [], exitFlag := false, fetched := [] }
  induction fs with
  | nil => intro acc; simp
  | cons f fs ih =>
    intro acc
    simp only [List.foldl_cons, ih, List.map_cons, List.flatten_cons, List.any_cons]
    simp [List.append_assoc, Bool.or_assoc]

/-! ## Claim theorems -/

/-- C10: for every completed-job event whose output payload is not a plain
non-array object (e.g. `null`, a string, a number, or an array),
`applyRowResult` treats it as empty: no cell value is written, no cell is
removed from the pending set, and the success count is unchanged — the
reconciler never fails on such a payload. -/
theorem C10_non_object_payload_is_noop (g : Grid) (row : Nat) (c : Content)
    (th : List String) (tc : List Nat) (h : ∀ es, c ≠ Content.objV es) :
    applyRowResult g row c th tc = { grid := g, cleared := [], succ := 0 } := by
  unfold applyRowResult
  cases c with
  | objV es => exact absurd rfl (h es)
  | undefV => rfl
  | nullV => rfl
  | boolV b => rfl
  | numV n => rfl
  | strV s => rfl
  | arrV xs => rfl

/-- C10 witness: an array payload at a concrete grid changes nothing. -/
theorem C10_witness :
    (∀ es, Content.arrV [] ≠ Content.objV es) ∧
    applyRowResult gInit 1 (Content.arrV []) ["Stage"] [1] =
      { grid := gInit, cleared := [], succ := 0 } :=
  ⟨fun _ h => Content.noConfusion h,
   C10_non_object_payload_is_noop gInit 1 _ ["Stage"] [1] (fun _ h => Content.noConfusion h)⟩

/-- C9: for every JobSpec submitted in a batch, the job's output schema is a
closed object schema whose required list is exactly that JobSpec's
targetHeaders, whose property keys are exactly the targetHeaders, and which
forbids additional properties. -/
theorem C9_output_schema_closed (rows : List RowPayload) (proc : String) (i : Nat)
    (hi : i < rows.length) :
    ∃ hlen : i < (inputsOf rows proc).length,
      ((inputsOf rows proc).get ⟨i, hlen⟩).task_spec.json_schema.required =
        (rows.get ⟨i, hi⟩).targetHeaders ∧
      (∀ k, (k ∈ ((inputsOf rows proc).get ⟨i, hlen⟩).task_spec.json_schema.properties.map
          Prod.fst) ↔ k ∈ (rows.get ⟨i, hi⟩).targetHeaders) ∧
      ((inputsOf rows proc).get ⟨i, hlen⟩).task_spec.json_schema.additionalProperties
        = false ∧
      ((inputsOf rows proc).get ⟨i, hlen⟩).task_spec.json_schema.typ = "object" := by
  have hlen : i < (inputsOf rows proc).length := by
    simpa [inputsOf] using hi
  have hget : ((inputsOf rows proc).get ⟨i, hlen⟩).task_spec =
      buildExplicitSchema ((rows.get ⟨i, hi⟩).targetHeaders) := by
    simp [inputsOf, List.get_eq_getElem, List.getElem_map, List.getElem_enum]
  refine ⟨hlen, ?_⟩
  rw [hget]
  unfold buildExplicitSchema
  refine ⟨rfl, ?_, rfl, rfl⟩
  intro k
  rw [mem_keys_objFromEntries]
  simp

/-- C9 witness: the schema of the single job of a concrete batch. -/
theorem C9_witness :
    ∃ hlen : 0 < (inputsOf [rp0] "lite").length,
      ((inputsOf [rp0] "lite").get ⟨0, hlen⟩).task_spec.json_schema.required =
        ([rp0].get ⟨0, Nat.zero_lt_succ 0⟩).targetHeaders ∧
      (∀ k, (k ∈ ((inputsOf [rp0] "lite").get ⟨0, hlen⟩).task_spec.json_schema.properties.map
          Prod.fst) ↔ k ∈ ([rp0].get ⟨0, Nat.zero_lt_succ 0⟩).targetHeaders) ∧
      ((inputsOf [rp0] "lite").get ⟨0, hlen⟩).task_spec.json_schema.additionalProperties
        = false ∧
      ((inputsOf [rp0] "lite").get ⟨0, hlen⟩).task_spec.json_schema.typ = "object" :=
  C9_output_schema_closed [rp0] "lite" 0 (Nat.zero_lt_succ 0)

/-- C6 (code bug): cancelling a busy run clears busy and pending but leaves
the 10-minute timeout armed — `cancelEnrichment` has no access to the timer
handle local to the `enrich` closure and never clears it, so the timeout
callback still fires later; the claim that firing one termination path
cancels the possibility of the others fails for the cancellation path. -/
theorem C6_cancellation_leaves_timeout_armed (s : RunState) (g : String)
    (hb : s.busy = true) (hg : s.groupId = some g) (ht : s.timerArmed = true) :
    (cancelEnrichment s).busy = false ∧ (cancelEnrichment s).pending = ∅ ∧
    (cancelEnrichment s).timerArmed = true := by
  unfold cancelEnrichment
  rw [if_neg (by simp [hg, hb])]
  exact ⟨rfl, rfl, ht⟩

/-- C6 witness: cancelling the concrete busy state `s0` leaves its timer
armed. -/
theorem C6_witness :
    s0.busy = true ∧ s0.groupId = some "g" ∧ s0.timerArmed = true ∧
    ((cancelEnrichment s0).busy = false ∧ (cancelEnrichment s0).pending = ∅ ∧
      (cancelEnrichment s0).timerArmed = true) :=
  ⟨rfl, rfl, rfl, C6_cancellation_leaves_timeout_armed s0 "g" rfl rfl rfl⟩

/-- C7 counterexample: a read whose batch holds the group-inactive frame
followed by another frame.  The claim predicts that nothing after the
group-inactive frame is emitted (output `[giFrame]`); the transport in fact
still emits the frame buffered behind it in the same read. -/
theorem C7_counterexample :
    transport fetchNone [[giFrame, othFrame]] = [giFrame, othFrame] ∧
    ([giFrame, othFrame] : List Frame) ≠ [giFrame] := by
  exact ⟨by decide, by decide⟩

/-- C7 (amended): once a read batch contains a group-inactive frame, the
transport emits that batch's frames (including the ones buffered behind the
group-inactive frame in the same read), reads no further batches, and ends
the stream: later reads contribute nothing to the output. -/
theorem C7_amended_stop_after_inactive_batch (fetchRes : String → Option Content)
    (b1 : List (List Frame)) (b : List Frame) (b2 : List (List Frame))
    (hgi : ∃ f ∈ b, isGroupInactive f = true) :
    transport fetchRes (b1 ++ b :: b2) = transport fetchRes (b1 ++ [b]) := by
  have hexit : (processBatch fetchRes b).exitFlag = true := by
    rw [processBatch_eq]
    simp only [List.any_eq_true]
    obtain ⟨f, hf, hgi'⟩ := hgi
    refine ⟨f, hf, ?_⟩
    have hty : f.eventType = "task_group_status" := by
      have h := hgi'
      unfold isGroupInactive at h
      simp only [Bool.and_eq_true, beq_iff_eq] at h
      exact h.1
    have hcno : isCompletedNoOutput f = false := by
      unfold isCompletedNoOutput
      rw [hty]
      simp
    unfold handleFrame
    rw [if_neg (by simp [hcno]), if_pos hgi']
  induction b1 with
  | nil =>
    show transport fetchRes (b :: b2) = transport fetchRes [b]
    simp only [transport, hexit]
    rfl
  | cons a b1 ih =>
    show transport fetchRes (a :: (b1 ++ b :: b2)) =
      transport fetchRes (a :: (b1 ++ [b]))
    simp only [transport]
    by_cases ha : (processBatch fetchRes a).exitFlag
    · simp [ha]
    · simp only [Bool.not_eq_true] at ha
      simp [ha, ih]

/-- C7 witness for the amended theorem: with the group-inactive frame in the
first read, a second read contributes nothing. -/
theorem C7_witness :
    (∃ f ∈ [giFrame], isGroupInactive f = true) ∧
    transport fetchNone ([] ++ [giFrame] :: [[othFrame]]) =
      transport fetchNone ([] ++ [[giFrame]]) :=
  ⟨⟨giFrame, by decide, by decide⟩,
   C7_amended_stop_after_inactive_batch fetchNone [] [giFrame] [[othFrame]]
     ⟨giFrame, by decide, by decide⟩⟩

/-- C8: for every completed-job frame carrying no output, the transport
performs exactly one result fetch and re-emits exactly one frame: an
augmented frame carrying the fetched output when the fetch yields a truthy
output, the original output-less frame unchanged when the fetch fails or
yields no output.  Frames are processed one at a time, each contributing its
own emitted frames and fetches in order, so only that frame is blocked. -/
theorem C8_backfill_blocks_only_that_frame (fetchRes : String → Option Content)
    (f : Frame) (h : isCompletedNoOutput f = true) :
    (handleFrame fetchRes f).fetched = [frameRunId f] ∧
    ((∃ out, fetchOutput fetchRes (frameRunId f) = some out ∧
        (handleFrame fetchRes f).frames =
          [{ f with data := jsSetField f.data "output" out }]) ∨
      (fetchOutput fetchRes (frameRunId f) = none ∧
        (handleFrame fetchRes f).frames = [f])) ∧
    (∀ fs : List Frame,
      (processBatch fetchRes fs).frames =
        (fs.map (fun fr => (handleFrame fetchRes fr).frames)).flatten ∧
      (processBatch fetchRes fs).fetched =
        (fs.map (fun fr => (handleFrame fetchRes fr).fetched)).flatten) := by
  refine ⟨?_, ?_, ?_⟩
  · unfold handleFrame
    rw [if_pos h]
    cases hf : fetchOutput fetchRes (frameRunId f) <;> simp [hf]
  · unfold handleFrame
    rw [if_pos h]
    cases hf : fetchOutput fetchRes (frameRunId f) with
    | none => exact Or.inr ⟨rfl, by simp [hf]⟩
    | some out => exact Or.inl ⟨out, rfl, by simp [hf]⟩
  · intro fs
    rw [processBatch_eq]
    exact ⟨rfl, rfl⟩

/-- C8 witness: the concrete completed-without-output frame with a failing
result endpoint is re-emitted unchanged after its single fetch. -/
theorem C8_witness :
    isCompletedNoOutput cnoFrame = true ∧
    (handleFrame fetchNone cnoFrame).fetched = [frameRunId cnoFrame] ∧
    ((∃ out, fetchOutput fetchNone (frameRunId cnoFrame) = some out ∧
        (handleFrame fetchNone cnoFrame).frames =
          [{ cnoFrame with data := jsSetField cnoFrame.data "output" out }]) ∨
      (fetchOutput fetchNone (frameRunId cnoFrame) = none ∧
        (handleFrame fetchNone cnoFrame).frames = [cnoFrame])) :=
  ⟨by decide,
   (C8_backfill_blocks_only_that_frame fetchNone cnoFrame (by decide)).1,
   (C8_backfill_blocks_only_that_frame fetchNone cnoFrame (by decide)).2.1⟩

/-- C1 counterexample: a failed event whose run id `"zzz"` is absent from
the correlation table `rm0` nonetheless changes `errorCount` — the claim
says such an event leaves `errorCount` unchanged. -/
theorem C1_counterexample :
    (handleEventData rm0 [(1, 1)] evFailedUnknown s0).errorCount ≠
      s0.errorCount := by
  decide

/-- C1 (amended): every failed task-run event increments `errorCount` by
one, whether or not the run id is known (the increment precedes the lookup);
the job's target cells are removed from the pending set only when the id is
found in the correlation table, and a failed event with an absent or unknown
id leaves the pending set, the grid, the busy flag and `successCount`
unchanged — only `errorCount` moves.  No value is written in either case. -/
theorem C1_amended_failed_event (rm : List (String × RunMapEntry))
    (sel : List (Nat × Nat)) (d : Content) (s : RunState)
    (htype : jsGet d "type" = Content.strV "task_run.state" ∨
      jsGet d "type" = Content.strV "task_run")
    (hfail : jsGet (jsGet d "run") "status" = Content.strV "failed") :
    (handleEventData rm sel d s).errorCount = s.errorCount + 1 ∧
    (handleEventData rm sel d s).grid = s.grid ∧
    (handleEventData rm sel d s).busy = s.busy ∧
    (handleEventData rm sel d s).successCount = s.successCount ∧
    (((jsGet (jsGet d "run") "run_id").truthy = false ∨
        rm.lookup (jsGet (jsGet d "run") "run_id").toStr = none) →
      (handleEventData rm sel d s).pending = s.pending) ∧
    (∀ meta : RunMapEntry, (jsGet (jsGet d "run") "run_id").truthy = true →
      rm.lookup (jsGet (jsGet d "run") "run_id").toStr = some meta →
      (handleEventData rm sel d s).pending =
        s.pending \ (meta.targetCols.map (fun c => (meta.row, c))).toFinset) := by
  have hne : ¬(jsGet (jsGet d "run") "status" = Content.strV "completed" ∧
      (jsGet d "output").truthy) := by
    rw [hfail]
    rintro ⟨hc, -⟩
    exact absurd hc (by decide)
  unfold handleEventData
  rw [if_pos htype, if_neg hne, if_pos hfail]
  by_cases hrid : (jsGet (jsGet d "run") "run_id").truthy
  · rw [if_pos hrid]
    cases hlook : rm.lookup (jsGet (jsGet d "run") "run_id").toStr with
    | none =>
      refine ⟨rfl, rfl, rfl, rfl, fun _ => rfl, ?_⟩
      intro meta _ hl
      exact Option.noConfusion hl
    | some meta =>
      refine ⟨rfl, rfl, rfl, rfl, ?_, ?_⟩
      · rintro (h | h)
        · exact absurd hrid (by simp [h])
        · exact Option.noConfusion h
      · intro meta2 _ hl
        obtain rfl := Option.some.inj hl
        rfl
  · rw [if_neg hrid]
    refine ⟨rfl, rfl, rfl, rfl, fun _ => rfl, ?_⟩
    intro meta hr _
    exact absurd hr hrid

/-- C1 witness: at a known failed id the counter increments and exactly the
job's target cells leave the pending set. -/
theorem C1_witness :
    (handleEventData rm0 [(1, 1)] evFailedKnown s0).errorCount =
      s0.errorCount + 1 ∧
    (handleEventData rm0 [(1, 1)] evFailedKnown s0).pending =
      s0.pending \
        (((⟨1, [1], ["Stage"]⟩ : RunMapEntry)).targetCols.map
          (fun c => (((⟨1, [1], ["Stage"]⟩ : RunMapEntry)).row, c))).toFinset :=
  ⟨(C1_amended_failed_event rm0 [(1, 1)] evFailedKnown s0
      (Or.inl (by decide)) (by decide)).1,
   (C1_amended_failed_event rm0 [(1, 1)] evFailedKnown s0
      (Or.inl (by decide)) (by decide)).2.2.2.2.2
     ⟨1, [1], ["Stage"]⟩ (by decide) (by decide)⟩

/-- C2: the delivered `run_map` of a submission response contains exactly
one entry per returned job id that is non-empty (and defined) and has a
positional JobSpec, mapping `jobIds[i]` to the `{row, targetCols,
targetHeaders}` of `jobSpecs[i]`, and no key for any other returned id.  The
in-memory construction first inserts a transient `("undefined", undefined)`
property for each dropped id (because `[].filter(Boolean)` keeps the truthy
empty array), but `JSON.stringify` omits `undefined`-valued properties, so
the response object satisfies the claim.  Hypotheses: the returned ids that
are kept are pairwise distinct identifiers and none of them is the literal
string `"undefined"` (otherwise the transient property would overwrite it). -/
theorem C2_run_map_exactly_positional (ids : List (Option String))
    (rows : List RowPayload)
    (h1 : ((specRunMap ids rows).map Prod.fst).Nodup)
    (h2 : "undefined" ∉ (specRunMap ids rows).map Prod.fst) :
    runMapDelivered ids rows = specRunMap ids rows := by
  unfold runMapDelivered runMapBuilt
  rw [jsonDrop_objFromEntries (runMapItems ids rows) (runMapItems_bad ids rows)
      (by rw [jsonDrop_runMapItems]; exact h1)
      (by rw [jsonDrop_runMapItems]; exact h2)]
  exact jsonDrop_runMapItems ids rows

/-- C2 witness: a batch of three returned ids, the middle one empty: the
delivered table holds exactly the two good ids, positionally paired. -/
theorem C2_witness :
    ((specRunMap [some "a", some "", some "b"] [rp0, rp0, rp0]).map Prod.fst).Nodup ∧
    "undefined" ∉ (specRunMap [some "a", some "", some "b"] [rp0, rp0, rp0]).map Prod.fst ∧
    runMapDelivered [some "a", some "", some "b"] [rp0, rp0, rp0] =
      specRunMap [some "a", some "", some "b"] [rp0, rp0, rp0] :=
  ⟨by decide, by decide,
   C2_run_map_exactly_positional [some "a", some "", some "b"] [rp0, rp0, rp0]
     (by decide) (by decide)⟩

/-- C3 counterexample: for the normalized header-only selection (both rows
0), the claim's interval `[max(1, selStart.row), selEnd.row] = [1, 0]` is
empty, so the claim demands zero JobSpecs; the builder produces one (for
row 1), because the code computes `endRow = max(startRow, selEnd.row)`. -/
theorem C3_counterexample :
    (buildRowsPayload gInit selHeaderOnly).length ≠
      (List.range' (max 1 selHeaderOnly.start.row)
        (selHeaderOnly.stop.row + 1 - max 1 selHeaderOnly.start.row)).length := by
  decide

/-- C3 (amended): the builder produces exactly one JobSpec per row of
`[max(1, selStart.row), max(max(1, selStart.row), selEnd.row)]` (which is
`[max(1, selStart.row), selEnd.row]` whenever `selEnd.row ≥ 1`, and the
single row 1 for a selection confined to the header row), in row-ascending
order, each with `targetCols`/`targetHeaders` the selected columns' indices
and headers in left-to-right order, and with `context` the full row keyed by
header name (for pairwise-distinct headers, the context maps header `j` to
the row's value at column `j`). -/
theorem C3_amended_builder (g : Grid) (r : Range) :
    (buildRowsPayload g r).length =
      max (max 1 r.start.row) r.stop.row + 1 - max 1 r.start.row ∧
    (∀ i (hi : i < (buildRowsPayload g r).length),
      ((buildRowsPayload g r).get ⟨i, hi⟩).row = max 1 r.start.row + i ∧
      ((buildRowsPayload g r).get ⟨i, hi⟩).targetCols =
        List.range' r.start.column (r.stop.column + 1 - r.start.column) ∧
      ((buildRowsPayload g r).get ⟨i, hi⟩).targetHeaders =
        (List.range' r.start.column (r.stop.column + 1 - r.start.column)).map
          (fun c => (headersOf g).getD c "")) ∧
    ((headersOf g).Nodup →
      ∀ i (hi : i < (buildRowsPayload g r).length) (j : Nat)
        (hj : j < (headersOf g).length),
        (((buildRowsPayload g r).get ⟨i, hi⟩).context).lookup
            ((headersOf g).get ⟨j, hj⟩) =
          some (((g.getD (max 1 r.start.row + i) []).map valueOrEmpty).getD j
            Content.undefV)) := by
  refine ⟨by simp [buildRowsPayload], ?_, ?_⟩
  · intro i hi
    have hi' : i < (List.range' (max 1 r.start.row)
        (max (max 1 r.start.row) r.stop.row + 1 - max 1 r.start.row)).length := by
      simpa [buildRowsPayload] using hi
    refine ⟨?_, ?_, ?_⟩ <;>
      simp [buildRowsPayload, List.get_eq_getElem, List.getElem_map,
        List.getElem_range']
  · intro hnd i hi j hj
    have hget : ((buildRowsPayload g r).get ⟨i, hi⟩).context =
        objFromEntries ((headersOf g).enum.map
          (fun p => (p.2,
            ((g.getD (max 1 r.start.row + i) []).map valueOrEmpty).getD p.1
              Content.undefV))) := by
      simp [buildRowsPayload, List.get_eq_getElem, List.getElem_map,
        List.getElem_range']
    rw [hget]
    have hkeys : (((headersOf g).enum.map
        (fun p => (p.2,
          ((g.getD (max 1 r.start.row + i) []).map valueOrEmpty).getD p.1
            Content.undefV))).map Prod.fst) = headersOf g := by
      rw [List.map_map]
      exact List.enum_map_snd _
    rw [objFromEntries_of_nodup _ (by rw [hkeys]; exact hnd)]
    have hlen : ((headersOf g).enum.map
        (fun p => (p.2,
          ((g.getD (max 1 r.start.row + i) []).map valueOrEmpty).getD p.1
            Content.undefV))).length = (headersOf g).length := by
      simp
    have hj' : j < ((headersOf g).enum.map
        (fun p => (p.2,
          ((g.getD (max 1 r.start.row + i) []).map valueOrEmpty).getD p.1
            Content.undefV))).length := by
      rw [hlen]; exact hj
    have hItem : ((headersOf g).enum.map
        (fun p => (p.2,
          ((g.getD (max 1 r.start.row + i) []).map valueOrEmpty).getD p.1
            Content.undefV))).get ⟨j, hj'⟩ =
        ((headersOf g).get ⟨j, hj⟩,
          ((g.getD (max 1 r.start.row + i) []).map valueOrEmpty).getD j
            Content.undefV) := by
      simp [List.get_eq_getElem, List.getElem_map, List.getElem_enum]
    have hlk := lookup_get_of_nodup _ (by rw [hkeys]; exact hnd) ⟨j, hj'⟩
    rw [hItem] at hlk
    exact hlk

/-- C3 witness: on the concrete grid and the data-row selection `rSel`, the
builder yields one JobSpec whose context maps header 0 to the row value at
column 0. -/
theorem C3_witness :
    (buildRowsPayload gInit rSel).length =
      max (max 1 rSel.start.row) rSel.stop.row + 1 - max 1 rSel.start.row ∧
    (((buildRowsPayload gInit rSel).get ⟨0, by decide⟩).context).lookup
        ((headersOf gInit).get ⟨0, by decide⟩) =
      some (((gInit.getD (max 1 rSel.start.row + 0) []).map valueOrEmpty).getD 0
        Content.undefV) :=
  ⟨(C3_amended_builder gInit rSel).1,
   (C3_amended_builder gInit rSel).2.2 (by decide) 0 (by decide) 0 (by decide)⟩

/-- C4 counterexample: the grid `gDup` has headers `"employee_count"` and
`"EmployeeCount"`, which normalise identically.  The output key
`"employee_count"` matches the first header exactly, so the claim's
exact-match-first policy fills column 0; the code's `headerIndex` is
last-write-wins on the normalised key, so it fills column 1 and leaves
column 0 untouched. -/
theorem C4_counterexample :
    ((applyRowResult gDup 1 (Content.objV [("employee_count", Content.strV "42")])
        ["employee_count"] [0]).grid.getD 1 []).getD 0 Content.undefV =
      Content.strV "" ∧
    ((applyRowResult gDup 1 (Content.objV [("employee_count", Content.strV "42")])
        ["employee_count"] [0]).grid.getD 1 []).getD 1 Content.undefV =
      Content.strV "42" := by
  decide

/-- C4 (amended): an output key is resolved by case/punctuation-insensitive
match against the sheet headers — the LAST header with the same normalised
form wins, so an exact match is not prioritised over a later
normalised-equal header — and, only if no header normalises to the key, by
case/punctuation-insensitive match against the job's `targetHeaders`, taking
the entry of the parallel `targetCols` at the first matching position; a
key that resolves to no (in-range) column is ignored: nothing is written,
no cell leaves the pending set, and the success count is unchanged. -/
theorem C4_amended_key_resolution (headers : List String) (th : List String)
    (tc : List Nat) (k : String) :
    (headerIndexGet headers (norm k) =
      ((headers.enum.reverse.find? (fun q => norm q.2 == norm k)).map Prod.fst)) ∧
    (∀ c, headerIndexGet headers (norm k) = some c →
      resolveCol headers th tc k = some c) ∧
    (headerIndexGet headers (norm k) = none →
      resolveCol headers th tc k =
        (th.findIdx? (fun t => norm t = norm k)).bind (fun idx => tc[idx]?)) ∧
    (∀ (g : Grid) (row : Nat) (v : Content),
      resolveColChecked (headersOf g) th (tColsOf (headersOf g) th tc)
          ((g.headD []).length) k = none →
      applyRowResult g row (Content.objV [(k, v)]) th tc =
        { grid := g, cleared := [], succ := 0 }) ∧
    (∀ (g : Grid) (row : Nat) (v : Content) (c : Nat),
      resolveColChecked (headersOf g) th (tColsOf (headersOf g) th tc)
          ((g.headD []).length) k = some c →
      applyRowResult g row (Content.objV [(k, v)]) th tc =
        { grid := setCellValue g row c v, cleared := [(row, c)], succ := 1 }) := by
  refine ⟨headerIndexGet_eq_find headers (norm k), ?_, ?_, ?_, ?_⟩
  · intro c h
    unfold resolveCol
    rw [h]
  · intro h
    unfold resolveCol
    rw [h]
    by_cases hth : th = []
    · subst hth; simp
    · rw [if_pos hth]
      cases hidx : th.findIdx? (fun t => norm t = norm k) <;> simp [hidx]
  · intro g row v hr
    simp only [applyRowResult, List.foldl_cons, List.foldl_nil]
    rw [hr]
  · intro g row v c hr
    simp only [applyRowResult, List.foldl_cons, List.foldl_nil]
    rw [hr]
    simp

/-- C4 witness: the spec's own example — output key `"Employee Count"`
fills the header literally `"employee_count"` (column 0 of `gEx`). -/
theorem C4_witness :
    resolveCol (headersOf gEx) ["employee_count"] [0] "Employee Count" = some 0 ∧
    applyRowResult gEx 1 (Content.objV [("Employee Count", Content.strV "50")])
        ["employee_count"] [0] =
      { grid := setCellValue gEx 1 0 (Content.strV "50"), cleared := [(1, 0)],
        succ := 1 } :=
  ⟨(C4_amended_key_resolution (headersOf gEx) ["employee_count"] [0]
      "Employee Count").2.1 0 (by decide),
   (C4_amended_key_resolution (headersOf gEx) ["employee_count"] [0]
      "Employee Count").2.2.2.2 gEx 1 (Content.strV "50") 0 (by decide)⟩

/-- C5: within a run the pending set is seeded once at submission with every
selected cell; every reconciler event only shrinks it (no cell is ever
re-added); and every path that drops the busy flag to `false` leaves the
pending set empty: the group-inactive completion event, cancellation, the
timeout callback, the stream-error handler and the submission-failure
branch (the latter four clear it directly, the event paths clear exactly
the selected cells, which cover the whole pending set by the seeding
invariant `pending ⊆ selectedCells`). -/
theorem C5_pending_monotone_and_cleared :
    (∀ (sel : List (Nat × Nat)) (gid : String) (s : RunState),
      s.pending = ∅ → (initRun sel gid s).pending = sel.toFinset) ∧
    (∀ rm sel d s, (handleEventData rm sel d s).pending ⊆ s.pending) ∧
    (∀ rm sel d s, s.busy = true →
      (handleEventData rm sel d s).busy = false →
      s.pending ⊆ sel.toFinset →
      (handleEventData rm sel d s).pending = ∅) ∧
    (∀ s : RunState, s.busy = true → (cancelEnrichment s).busy = false →
      (cancelEnrichment s).pending = ∅) ∧
    (∀ sel (s : RunState), s.pending ⊆ sel.toFinset →
      (timeoutFire sel s).pending = ∅ ∧ (timeoutFire sel s).busy = false) ∧
    (∀ sel (s : RunState), s.pending ⊆ sel.toFinset →
      (streamErrorFire sel s).pending = ∅ ∧ (streamErrorFire sel s).busy = false) ∧
    (∀ sel (s : RunState), s.pending ⊆ sel.toFinset →
      (submitFail sel s).pending = ∅ ∧ (submitFail sel s).busy = false) := by
  refine ⟨?_, ?_, ?_, ?_, ?_, ?_, ?_⟩
  · intro sel gid s h
    simp [initRun, h]
  · intro rm sel d s
    exact (handleEventData_pending_busy rm sel d s).1
  · intro rm sel d s hb hb2 hsub
    rw [(handleEventData_pending_busy rm sel d s).2 hb2 hb]
    exact Finset.sdiff_eq_empty_iff_subset.mpr hsub
  · intro s hb hb2
    unfold cancelEnrichment at hb2 ⊢
    by_cases hc : s.groupId = none ∨ s.busy = false
    · rw [if_pos hc] at hb2
      rw [hb] at hb2
      exact Bool.noConfusion hb2
    · rw [if_neg hc]
  · intro sel s h
    exact ⟨by simpa [timeoutFire] using Finset.sdiff_eq_empty_iff_subset.mpr h, rfl⟩
  · intro sel s h
    exact ⟨by simpa [streamErrorFire] using Finset.sdiff_eq_empty_iff_subset.mpr h, rfl⟩
  · intro sel s h
    exact ⟨by simpa [submitFail] using Finset.sdiff_eq_empty_iff_subset.mpr h, rfl⟩

/-- C5 witness: the lifecycle facts at the concrete run state `s0` with the
selected cell list `[(1, 1)]`. -/
theorem C5_witness :
    (initRun [(1, 1)] "g" sIdle).pending = ([(1, 1)] : List (Nat × Nat)).toFinset ∧
    (handleEventData rm0 [(1, 1)] evFailedKnown s0).pending ⊆ s0.pending ∧
    (handleEventData rm0 [(1, 1)] evGroupInactive s0).pending = ∅ ∧
    (cancelEnrichment s0).pending = ∅ ∧
    ((timeoutFire [(1, 1)] s0).pending = ∅ ∧ (timeoutFire [(1, 1)] s0).busy = false) ∧
    ((streamErrorFire [(1, 1)] s0).pending = ∅ ∧
      (streamErrorFire [(1, 1)] s0).busy = false) ∧
    ((submitFail [(1, 1)] s0).pending = ∅ ∧ (submitFail [(1, 1)] s0).busy = false) :=
  ⟨C5_pending_monotone_and_cleared.1 [(1, 1)] "g" sIdle (by decide),
   C5_pending_monotone_and_cleared.2.1 rm0 [(1, 1)] evFailedKnown s0,
   C5_pending_monotone_and_cleared.2.2.1 rm0 [(1, 1)] evGroupInactive s0 rfl
     (by decide) (by decide),
   C5_pending_monotone_and_cleared.2.2.2.1 s0 rfl (by decide),
   C5_pending_monotone_and_cleared.2.2.2.2.1 [(1, 1)] s0 (by decide),
   C5_pending_monotone_and_cleared.2.2.2.2.2.1 [(1, 1)] s0 (by decide),
   C5_pending_monotone_and_cleared.2.2.2.2.2.2 [(1, 1)] s0 (by decide)⟩

end PSheet
